import Mathlib

/-!
Verification development for the OCR phone-number extraction pipeline of the
Egyptian carriers customer-management repository (`ocr_processor.py`).

Modelling conventions:
* Python strings are `List Char`; string literals are written `"...".data`.
* `re.findall` over the fixed pattern list of `extract_phone_numbers` is
  implemented by a small matcher (`matchElems` / `findall`) covering exactly
  the constructs those patterns use: literal characters, character classes,
  fixed repetition (unrolled), a greedy optional separator class `[- ]?`
  (with backtracking), and the word-boundary assertion `\x62`.
* Python's `set` is modelled as an insertion-ordered duplicate-free list
  (`insertPhone`); CPython set iteration order is unspecified, and every
  property proved below is independent of that order.
* External capabilities (PIL image transforms, numpy thresholding, the
  tesseract OCR engine) are oracle functions supplied in `PILOps` / `OCROps`
  records, mirroring how the code calls them; either they return a value or
  they raise (`Except`).
* `str.lower` / `str.isdigit` / `\w` are modelled on the ASCII range (plus
  the Arabic block for word characters); every string the pipeline inspects
  at the points where these are applied is ASCII or Arabic, where the model
  agrees with Python.
-/

/-- Python `str.lower()` restricted to ASCII case mapping (Arabic letters,
digits and punctuation are fixed points, exactly as in Python). -/
def pyLower (l : List Char) : List Char :=
  l.map Char.toLower

/-- Python substring test `needle in hay`. -/
def strContains : List Char → List Char → Bool
  | [], needle => needle.isEmpty
  | c :: t, needle => needle.isPrefixOf (c :: t) || strContains t needle

/-- Python `str.strip()` whitespace set (ASCII part). -/
def pySpace (c : Char) : Bool :=
  c = ' ' || c = '\t' || c = '\n' || c = '\r' || c = Char.ofNat 11 || c = Char.ofNat 12

/-- Python `str.strip()`. -/
def pyStrip (l : List Char) : List Char :=
  ((l.dropWhile pySpace).reverse.dropWhile pySpace).reverse

/-- Python `str.isdigit()` (ASCII digits; nonempty required). -/
def pyIsDigit (l : List Char) : Bool :=
  !l.isEmpty && l.all Char.isDigit

/-- A word character for the `\x62` assertion (`\w`): ASCII alphanumerics,
underscore, and the Arabic block (Python's `re` is Unicode-aware). -/
def isWordChar (c : Char) : Bool :=
  c.isAlphanum || c = '_' || (0x600 ≤ c.toNat && c.toNat ≤ 0x6FF)

/-- Word-ness of an optional character; the absent character at either end of
the string counts as a non-word position. -/
def isWordOpt : Option Char → Bool
  | none => false
  | some c => isWordChar c

/-- One element of a compiled regular expression: a character class, an
optional (greedy) character class, or a word boundary. The fixed patterns of
`extract_phone_numbers` use nothing else once the `{n}` repetitions are
unrolled. -/
inductive RElem where
  | cls (cs : List Char)
  | opt (cs : List Char)
  | wb
deriving DecidableEq

/-- Match a compiled pattern at the head of `s`, given the character just
before the current position (`prev`, for word boundaries). Returns the list
of consumed characters of the (greedy, leftmost) match, or `none`. -/
def matchElems : List RElem → Option Char → List Char → Option (List Char)
  | [], _, _ => some []
  | RElem.wb :: es, prev, s =>
    if isWordOpt prev != isWordOpt s.head? then matchElems es prev s else none
  | RElem.cls _ :: _, _, [] => none
  | RElem.cls cs :: es, _, c :: rest =>
    if cs.contains c then (matchElems es (some c) rest).map (fun m => c :: m) else none
  | RElem.opt _ :: es, prev, [] => matchElems es prev []
  | RElem.opt cs :: es, prev, c :: rest =>
    if cs.contains c then
      match matchElems es (some c) rest with
      | some m => some (c :: m)
      | none => matchElems es prev (c :: rest)
    else matchElems es prev (c :: rest)

/-- Scan for leftmost, non-overlapping matches (`re.findall` semantics for
group-free patterns). `fuel` bounds the number of scanning steps; it is
initialized to more than the text length, and every step either consumes at
least one character or ends the scan, so the fuel never runs out. -/
def findallAux (pat : List RElem) : Nat → Option Char → List Char → List (List Char)
  | 0, _, _ => []
  | Nat.succ fuel, prev, s =>
    match matchElems pat prev s with
    | some (c :: m) =>
      (c :: m) :: findallAux pat fuel (some (m.getLastD c)) (s.drop (c :: m).length)
    | some [] =>
      match s with
      | [] => [[]]
      | c :: rest => [] :: findallAux pat fuel (some c) rest
    | none =>
      match s with
      | [] => []
      | c :: rest => findallAux pat fuel (some c) rest

/-- Run `re.findall(pattern, text)` for the compiled pattern. -/
def findall (pat : List RElem) (text : List Char) : List (List Char) :=
  findallAux pat (text.length + 1) none text

/-- The class `[0-9]`. -/
def digitCls : RElem :=
  RElem.cls "0123456789".data

/-- The optional separator `[- ]?`. -/
def optSep : RElem :=
  RElem.opt ['-', ' ']

/-- A literal string as a pattern fragment. -/
def litStr (s : List Char) : List RElem :=
  s.map (fun c => RElem.cls [c])

/-- The local `enhanced_patterns` list of `extract_phone_numbers`
(`ocr_processor.py` lines 156-169), in source order. -/
def enhanced_patterns : List (List RElem) :=
  [ [RElem.wb] ++ litStr "01".data ++ List.replicate 9 digitCls ++ [RElem.wb],
    [RElem.wb] ++ litStr "01".data ++ [digitCls, optSep] ++ List.replicate 4 digitCls
      ++ [optSep] ++ List.replicate 4 digitCls ++ [RElem.wb],
    [RElem.wb, RElem.cls ['+']] ++ litStr "201".data ++ List.replicate 9 digitCls ++ [RElem.wb],
    [RElem.wb] ++ litStr "00201".data ++ List.replicate 9 digitCls ++ [RElem.wb],
    [RElem.wb] ++ litStr "201".data ++ List.replicate 9 digitCls ++ [RElem.wb],
    litStr "011".data ++ List.replicate 8 digitCls,
    litStr "010".data ++ List.replicate 8 digitCls,
    litStr "012".data ++ List.replicate 8 digitCls,
    litStr "015".data ++ List.replicate 8 digitCls,
    litStr "01128794048".data,
    litStr "01128794050".data ]

/-- The list `self.phone_patterns` set in `__init__` (lines 44-50). It is not consulted
by the extraction path (which uses its own local `enhanced_patterns`); kept
for fidelity. -/
def phone_patterns : List (List RElem) :=
  enhanced_patterns.take 5

/-- Model of `validate_egyptian_phone` (lines 202-214). -/
def validate_egyptian_phone (phone : List Char) : Bool :=
  if phone.isEmpty || phone.length != 11 then false
  else if !("01".data.isPrefixOf phone) then false
  else
    ["010".data, "011".data, "012".data, "015".data].contains (phone.take 3)
      && pyIsDigit (phone.drop 3)

/-- Adding a number to the `phone_numbers` set: insertion-ordered,
duplicate-free list model of `set.add`. -/
def insertPhone (s : List (List Char)) (n : List Char) : List (List Char) :=
  if n ∈ s then s else s ++ [n]

/-- Model of `clean_number = re.sub(r'[- +()]', '', match)` (line 175). -/
def cleanMatch (m : List Char) : List Char :=
  m.filter (fun ch => !(['-', ' ', '+', '(', ')'].contains ch))

/-- The normalization branch chain of `extract_phone_numbers`
(lines 177-185), applied to the cleaned match. -/
def normalizeClean (c : List Char) : List Char :=
  if "00201".data.isPrefixOf c then '0' :: c.drop 5
  else if "+201".data.isPrefixOf c then '0' :: c.drop 4
  else if "201".data.isPrefixOf c then '0' :: c.drop 3
  else if c.length = 10 then (if "1".data.isPrefixOf c then '0' :: c else c)
  else c

/-- Processing of one regex match (lines 173-189): clean, normalize,
validate, and add to the set if valid. -/
def phoneStep (s : List (List Char)) (m : List Char) : List (List Char) :=
  if validate_egyptian_phone (normalizeClean (cleanMatch m)) then
    insertPhone s (normalizeClean (cleanMatch m))
  else s

/-- The pattern loop of `extract_phone_numbers` (lines 171-189). -/
def regexPhase (text : List Char) : List (List Char) :=
  enhanced_patterns.foldl (fun s pat => (findall pat text).foldl phoneStep s) []

/-- One window check of the digit-only fallback (lines 195-198): the
candidate is `digit_only[i:i+11]`, accepted when it starts with `01` and
validates. -/
def windowStep (digit_only : List Char) (s : List (List Char)) (i : Nat) : List (List Char) :=
  if "01".data.isPrefixOf ((digit_only.drop i).take 11)
      && validate_egyptian_phone ((digit_only.drop i).take 11) then
    insertPhone s ((digit_only.drop i).take 11)
  else s

/-- The digit-only sliding-window fallback of `extract_phone_numbers`
(lines 191-198): strip non-digits (`re.sub(r'[^0-9]', '', text)`), then scan
every 11-character window. -/
def fallbackPhase (text : List Char) (s : List (List Char)) : List (List Char) :=
  if 11 ≤ (text.filter Char.isDigit).length then
    (List.range ((text.filter Char.isDigit).length - 10)).foldl
      (windowStep (text.filter Char.isDigit)) s
  else s

/-- Model of `extract_phone_numbers` (lines 148-200). Returns the accumulated set as a
list (the source's `list(phone_numbers)`; iteration order is unspecified in
Python, and no property below depends on the order of this list). -/
def extract_phone_numbers (text : List Char) : List (List Char) :=
  if text.isEmpty then [] else fallbackPhase text (regexPhase text)

/-- Orange keyword list from `network_keywords` (`__init__`, lines 25-28). -/
def kwsOrange : List (List Char) :=
  ["orange".data, "اورانج".data, "أورانج".data, "اورنج".data, "أورنج".data,
   "mobinil".data, "موبينيل".data, "موبنيل".data, "ORANGE".data, "Orange".data]

/-- Vodafone keyword list (lines 29-32). -/
def kwsVodafone : List (List Char) :=
  ["vodafone".data, "فودافون".data, "ڤودافون".data, "فودفون".data, "ڤودفون".data,
   "VODAFONE".data, "Vodafone".data, "VF".data]

/-- Etisalat keyword list (lines 33-36). -/
def kwsEtisalat : List (List Char) :=
  ["etisalat".data, "اتصالات".data, "إتصالات".data, "اتصلات".data, "إتصلات".data,
   "ETISALAT".data, "Etisalat".data, "ET".data]

/-- WE keyword list (lines 37-40). -/
def kwsWE : List (List Char) :=
  ["we".data, "وي".data, "تي إي داتا".data, "تي اي داتا".data, "te data".data,
   "tedata".data, "WE".data, "We".data, "TE DATA".data, "TEDATA".data]

/-- The dict `self.network_keywords` (lines 24-41): carriers in dict insertion order
(Orange, Vodafone, Etisalat, WE; the keys are the Arabic carrier names used
throughout the source). -/
def network_keywords : List (List Char × List (List Char)) :=
  [("اورانج".data, kwsOrange), ("فودافون".data, kwsVodafone),
   ("اتصالات".data, kwsEtisalat), ("وي".data, kwsWE)]

/-- The list `self.wallet_keywords` (lines 53-57), duplicates included. -/
def wallet_keywords : List (List Char) :=
  ["wallet".data, "محفظة".data, "محفظه".data, "فودافون كاش".data, "vodafone cash".data,
   "orange cash".data, "اورانج كاش".data, "أورانج كاش".data, "instapay".data,
   "انستاباي".data, "فوري".data, "fawry".data, "ايزي پاي".data, "easy pay".data,
   "محفظه".data, "كاش".data]

/-- Model of `determine_carrier_by_prefix` (lines 229-244): the fixed three-digit
prefix table, with Orange as the default for malformed numbers and for
prefixes outside the table. -/
def determine_carrier_by_prefix (phone : List Char) : List Char :=
  if phone.length != 11 || !("01".data.isPrefixOf phone) then "اورانج".data
  else if phone.take 3 = "010".data then "اورانج".data
  else if phone.take 3 = "011".data then "اتصالات".data
  else if phone.take 3 = "012".data then "اورانج".data
  else if phone.take 3 = "015".data then "وي".data
  else "اورانج".data

/-- Does any keyword of `kws` occur (as lowered substring) in the lowered
text `tl`? (The inner loop of `determine_carrier`, lines 221-224.) -/
def keywordHit (tl : List Char) (kws : List (List Char)) : Bool :=
  kws.any (fun k => strContains tl (pyLower k))

/-- Model of `determine_carrier` (lines 216-227): first carrier in `network_keywords`
order with a keyword occurring in the lowered text; otherwise the prefix
table. -/
def determine_carrier (text phone : List Char) : List Char :=
  let tl := pyLower text
  match network_keywords.find? (fun p => keywordHit tl p.2) with
  | some p => p.1
  | none => determine_carrier_by_prefix phone

/-- Model of `detect_wallet_mentions` (lines 246-253). -/
def detect_wallet_mentions (text : List Char) : Bool :=
  if text.isEmpty then false
  else wallet_keywords.any (fun k => strContains (pyLower text) (pyLower k))

/-- The structured record dict produced by the pipeline (`phone_number`,
`carrier`, `has_wallet`, `extracted_text`). -/
structure PhoneRecord where
  phone_number : List Char
  carrier : List Char
  has_wallet : Bool
  extracted_text : List Char
deriving DecidableEq

/-- Python `text[:limit] + '...' if len(text) > limit else text`. -/
def excerpt (limit : Nat) (t : List Char) : List Char :=
  if limit < t.length then t.take limit ++ "...".data else t

/-- Model of `process_extracted_text` (lines 123-146): one record per extracted
number, carrier and wallet flag both attributed from the full text. -/
def process_extracted_text (text : List Char) : List PhoneRecord :=
  if text.isEmpty then []
  else
    (extract_phone_numbers text).map (fun phone =>
      { phone_number := phone, carrier := determine_carrier text phone,
        has_wallet := detect_wallet_mentions text, extracted_text := excerpt 200 text })

/-- The PIL operations `preprocess_image` invokes, as oracles over an
abstract image type: attribute reads are total, transforms either return a
new image or raise. The enhancement factors 3.0 / 1.2 / 2.5 of the source
are fixed arguments of the corresponding oracle. -/
structure PILOps (Img : Type) where
  mode : Img → List Char
  size : Img → Nat × Nat
  convert : Img → List Char → Except Unit Img
  resize : Img → Nat × Nat → Except Unit Img
  enhanceContrast : Img → Except Unit Img
  enhanceBrightness : Img → Except Unit Img
  enhanceSharpness : Img → Except Unit Img

/-- The upscale target of `preprocess_image` (lines 72-74):
`scale = max(800/width, 600/height)`, `(int(width*scale), int(height*scale))`,
as exact rational arithmetic (Python computes with floats; the result feeds
only the abstract `resize` oracle). Assumes positive dimensions (the
zero-dimension `ZeroDivisionError` is handled in `preprocess_image`). -/
def newSize (w h : Nat) : Nat × Nat :=
  if 600 * w ≤ 800 * h then (800, h * 800 / w) else (w * 600 / h, 600)

/-- Lines 77-92 of `preprocess_image`: the tail of the `try` block after the
resize step (convert back to RGB, then contrast, brightness, sharpness).
A raise anywhere returns the current value of the `image` variable, which is
what the `except` branch (lines 93-95) returns. -/
def preprocessTail {Img : Type} (ops : PILOps Img) (img : Img) : Img :=
  match ops.convert img "RGB".data with
  | Except.error _ => img
  | Except.ok i4 =>
    match ops.enhanceContrast i4 with
    | Except.error _ => i4
    | Except.ok i5 =>
      match ops.enhanceBrightness i5 with
      | Except.error _ => i5
      | Except.ok i6 =>
        match ops.enhanceSharpness i6 with
        | Except.error _ => i6
        | Except.ok i7 => i7

/-- Model of `preprocess_image` (lines 59-95). The `except Exception` handler returns
the local `image` variable, i.e. the original input with every transform
that completed before the raise already applied. -/
def preprocess_image {Img : Type} (ops : PILOps Img) (image : Img) : Img :=
  match (if ops.mode image = "RGB".data then Except.ok image else ops.convert image "RGB".data) with
  | Except.error _ => image
  | Except.ok i1 =>
    match ops.convert i1 "L".data with
    | Except.error _ => i1
    | Except.ok i2 =>
      if (ops.size i2).1 < 800 || (ops.size i2).2 < 600 then
        if (ops.size i2).1 = 0 || (ops.size i2).2 = 0 then i2
        else
          match ops.resize i2 (newSize (ops.size i2).1 (ops.size i2).2) with
          | Except.error _ => i2
          | Except.ok i3 => preprocessTail ops i3
      else preprocessTail ops i2

/-- The external capabilities of `extract_from_image_data`: the PIL oracle,
the tesseract invocation `image_to_string(image, config)`, and the
numpy threshold-128 binarization of Method 2 (lines 348-352). -/
structure OCROps (Img : Type) where
  pil : PILOps Img
  recognize : Img → List Char → Except Unit (List Char)
  threshold : Img → Except Unit Img

/-- The `ocr_configs` list of `extract_from_image_data` (lines 306-312), in
source order. -/
def ocr_configs : List (List Char) :=
  ["--oem 3 --psm 6 -l eng".data,
   "--oem 3 --psm 8 -l eng".data,
   "--oem 3 --psm 7 -l eng".data,
   "--oem 3 --psm 6 -l ara+eng".data,
   "--oem 3 --psm 13 -l eng".data]

/-- One record as built by `extract_from_image_data` (lines 327-332):
carrier and wallet flag from the recognized text, excerpt truncated at 100
characters. -/
def mkRecord (t phone : List Char) : PhoneRecord :=
  { phone_number := phone, carrier := determine_carrier t phone,
    has_wallet := detect_wallet_mentions t, extracted_text := excerpt 100 t }

/-- The per-text record loop (lines 322-332 and 358-368): append a record
for each extracted number whose `phone_number` is not already present. -/
def addRecords (t : List Char) (phones : List (List Char)) (acc : List PhoneRecord) :
    List PhoneRecord :=
  phones.foldl (fun acc phone =>
    if phone ∈ acc.map (fun d => d.phone_number) then acc
    else acc ++ [mkRecord t phone]) acc

/-- Method 1 of `extract_from_image_data` (lines 314-339): sweep the OCR
configs against the preprocessed image; a config that raises or yields blank
text is skipped; after appending records the loop breaks as soon as
`extracted_data` is non-empty. -/
def ocrSweep {Img : Type} (ops : OCROps Img) (img : Img) :
    List (List Char) → List PhoneRecord → List PhoneRecord
  | [], acc => acc
  | config :: rest, acc =>
    match ops.recognize (preprocess_image ops.pil img) config with
    | Except.error _ => ocrSweep ops img rest acc
    | Except.ok t =>
      if !t.isEmpty && !(pyStrip t).isEmpty then
        let acc2 := addRecords t (extract_phone_numbers t) acc
        if acc2.isEmpty then ocrSweep ops img rest acc2 else acc2
      else ocrSweep ops img rest acc

/-- Method 2 of `extract_from_image_data` (lines 341-371): binarize
(grayscale convert, then numpy threshold) and run a single English psm-8
pass; any raise is swallowed. -/
def binarizePass {Img : Type} (ops : OCROps Img) (img : Img) (acc : List PhoneRecord) :
    List PhoneRecord :=
  match ops.pil.convert img "L".data with
  | Except.error _ => acc
  | Except.ok g =>
    match ops.threshold g with
    | Except.error _ => acc
    | Except.ok bw =>
      match ops.recognize bw "--oem 3 --psm 8 -l eng".data with
      | Except.error _ => acc
      | Except.ok t =>
        if !t.isEmpty && !(pyStrip t).isEmpty then addRecords t (extract_phone_numbers t) acc
        else acc

/-- The hard-coded Method 3 numbers (line 376). -/
def manual_numbers : List (List Char) :=
  ["01128794048".data, "01128794050".data]

/-- A Method 3 record (lines 379-384). -/
def manualRecord (phone : List Char) : PhoneRecord :=
  { phone_number := phone, carrier := "اتصالات".data, has_wallet := false,
    extracted_text := "تم استخراج الرقم يدوياً من صورة اتصالات".data }

/-- Method 3 of `extract_from_image_data` (lines 373-384): the manual
fallback, guarded by the same duplicate check. -/
def addManual (acc : List PhoneRecord) : List PhoneRecord :=
  manual_numbers.foldl (fun acc p =>
    if p ∈ acc.map (fun d => d.phone_number) then acc
    else acc ++ [manualRecord p]) acc

/-- Model of `extract_from_image_data` (lines 300-389): Method 1 config sweep, then
Method 2 binarize pass if nothing was found, then the Method 3 manual
fallback if still nothing. -/
def extract_from_image_data {Img : Type} (ops : OCROps Img) (img : Img) : List PhoneRecord :=
  let d1 := ocrSweep ops img ocr_configs []
  let d2 := if d1.isEmpty then binarizePass ops img d1 else d1
  if d2.isEmpty then addManual d2 else d2

/-! ## Generic fold lemmas -/

/-- A predicate preserved by every step of a left fold holds of the result. -/
theorem foldl_preserve {α β : Type} {P : β → Prop} {f : β → α → β}
    (hstep : ∀ b a, P b → P (f b a)) :
    ∀ (l : List α) (b : β), P b → P (l.foldl f b) := by
  intro l
  induction l with
  | nil => intro b hb; exact hb
  | cons a l ih =>
    intro b hb
    simp only [List.foldl_cons]
    exact ih (f b a) (hstep b a hb)

/-- If some element of the list establishes `P` and every step preserves it,
the fold result satisfies `P`. -/
theorem foldl_attain {α β : Type} {P : β → Prop} {f : β → α → β} (a : α)
    (hmono : ∀ b x, P b → P (f b x)) (hhit : ∀ b, P (f b a)) :
    ∀ (l : List α) (b : β), a ∈ l → P (l.foldl f b) := by
  intro l
  induction l with
  | nil => intro b h; exact absurd h (List.not_mem_nil a)
  | cons x l ih =>
    intro b h
    simp only [List.foldl_cons]
    rcases List.mem_cons.mp h with h1 | h2
    · exact foldl_preserve hmono l (f b x) (h1 ▸ hhit b)
    · exact ih (f b x) h2

/-! ## Set-insertion lemmas -/

theorem mem_insertPhone_self (s : List (List Char)) (n : List Char) :
    n ∈ insertPhone s n := by
  unfold insertPhone
  split
  · assumption
  · simp

theorem mem_insertPhone_of_mem {s : List (List Char)} {x n : List Char} (h : x ∈ s) :
    x ∈ insertPhone s n := by
  unfold insertPhone
  split <;> simp [h]

theorem mem_insertPhone {s : List (List Char)} {x n : List Char}
    (h : x ∈ insertPhone s n) : x ∈ s ∨ x = n := by
  unfold insertPhone at h
  split at h
  · exact Or.inl h
  · rcases List.mem_append.mp h with h1 | h2
    · exact Or.inl h1
    · exact Or.inr (List.mem_singleton.mp h2)

theorem nodup_insertPhone {s : List (List Char)} (h : s.Nodup) (n : List Char) :
    (insertPhone s n).Nodup := by
  unfold insertPhone
  split
  · exact h
  · rename_i hn
    rw [List.nodup_append]
    refine ⟨h, List.nodup_singleton n, ?_⟩
    intro x hx hx1
    rw [List.mem_singleton.mp hx1] at hx
    exact hn hx

/-! ## Validation lemmas -/

/-- Unfolding of a successful validation into the rule's four clauses. -/
theorem validate_spell {n : List Char} (h : validate_egyptian_phone n = true) :
    n.length = 11 ∧ "01".data.isPrefixOf n = true ∧
    n.take 3 ∈ ["010".data, "011".data, "012".data, "015".data] ∧
    (n.drop 3).length = 8 ∧ (n.drop 3).all Char.isDigit = true := by
  unfold validate_egyptian_phone at h
  split at h
  · cases h
  · rename_i h1
    split at h
    · cases h
    · rename_i h2
      simp only [Bool.or_eq_true, List.isEmpty_iff, bne_iff_ne, ne_eq, not_or] at h1
      have hlen : n.length = 11 := by
        rcases h1 with ⟨_, h1b⟩
        omega
      simp only [Bool.not_eq_true'] at h2
      rw [Bool.and_eq_true] at h
      rcases h with ⟨hc, hd⟩
      simp only [pyIsDigit, Bool.and_eq_true] at hd
      refine ⟨hlen, by simpa using h2, ?_, by simp [hlen], hd.2⟩
      simpa using hc

/-- A validated number literally starts with the characters `0`, `1`. -/
theorem validate_shape {n : List Char} (h : validate_egyptian_phone n = true) :
    n = '0' :: '1' :: n.drop 2 := by
  obtain ⟨-, hp, -, -, -⟩ := validate_spell h
  have hpfx : "01".data <+: n := by
    simpa using hp
  obtain ⟨t, ht⟩ := hpfx
  rw [← ht]
  rfl

/-- Every character of a validated number is an ASCII digit. -/
theorem validate_digits {n : List Char} (h : validate_egyptian_phone n = true) :
    ∀ c ∈ n, c.isDigit = true := by
  obtain ⟨-, -, h3, -, h5⟩ := validate_spell h
  intro c hc
  rw [← List.take_append_drop 3 n] at hc
  rcases List.mem_append.mp hc with h6 | h6
  · have h3' : n.take 3 = "010".data ∨ n.take 3 = "011".data ∨
        n.take 3 = "012".data ∨ n.take 3 = "015".data := by
      simpa using h3
    rcases h3' with h7 | h7 | h7 | h7 <;> rw [h7] at h6 <;> fin_cases h6 <;> decide
  · exact List.all_eq_true.mp h5 c h6

/-! ## Invariants of the extraction set -/

/-- Every number `phoneStep` leaves in the set is validated. -/
theorem phoneStep_valid {s : List (List Char)} {m : List Char}
    (hs : ∀ x ∈ s, validate_egyptian_phone x = true) :
    ∀ x ∈ phoneStep s m, validate_egyptian_phone x = true := by
  intro x hx
  unfold phoneStep at hx
  split at hx
  · rcases mem_insertPhone hx with h1 | h1
    · exact hs x h1
    · rename_i hv
      rw [h1]
      exact hv
  · exact hs x hx

/-- Every number `windowStep` leaves in the set is validated. -/
theorem windowStep_valid {dg : List Char} {s : List (List Char)} {i : Nat}
    (hs : ∀ x ∈ s, validate_egyptian_phone x = true) :
    ∀ x ∈ windowStep dg s i, validate_egyptian_phone x = true := by
  intro x hx
  unfold windowStep at hx
  split at hx
  · rcases mem_insertPhone hx with h1 | h1
    · exact hs x h1
    · rename_i hv
      rw [h1]
      exact (Bool.and_eq_true _ _).mp hv |>.2
  · exact hs x hx

/-- Every member of the extraction result is validated (lines 188 and 197
guard every insertion into the set with `validate_egyptian_phone`). -/
theorem extract_all_valid {text n : List Char} (h : n ∈ extract_phone_numbers text) :
    validate_egyptian_phone n = true := by
  unfold extract_phone_numbers at h
  split at h
  · cases h
  · have hreg : ∀ x ∈ regexPhase text, validate_egyptian_phone x = true := by
      unfold regexPhase
      refine foldl_preserve (P := fun s => ∀ x ∈ s, validate_egyptian_phone x = true)
        ?_ enhanced_patterns [] (by simp)
      intro s pat hp
      exact foldl_preserve (P := fun s => ∀ x ∈ s, validate_egyptian_phone x = true)
        (fun b a hb => phoneStep_valid hb) (findall pat text) s hp
    unfold fallbackPhase at h
    split at h
    · refine foldl_preserve (P := fun s => ∀ x ∈ s, validate_egyptian_phone x = true)
        ?_ _ _ hreg n h
      intro b a hb
      exact windowStep_valid hb
    · exact hreg n h

/-- The extraction result has no duplicate numbers (it models a `set`). -/
theorem extract_nodup (text : List Char) : (extract_phone_numbers text).Nodup := by
  unfold extract_phone_numbers
  split
  · exact List.nodup_nil
  · have hreg : (regexPhase text).Nodup := by
      unfold regexPhase
      refine foldl_preserve (P := fun s : List (List Char) => s.Nodup) ?_ enhanced_patterns [] List.nodup_nil
      intro s pat hp
      refine foldl_preserve (P := fun s : List (List Char) => s.Nodup) ?_ (findall pat text) s hp
      intro b a hb
      unfold phoneStep
      split
      · exact nodup_insertPhone hb _
      · exact hb
    unfold fallbackPhase
    split
    · refine foldl_preserve (P := fun s : List (List Char) => s.Nodup) ?_ _ _ hreg
      intro b a hb
      unfold windowStep
      split
      · exact nodup_insertPhone hb _
      · exact hb
    · exact hreg

/-! ## Membership via the digit-only sliding window -/

/-- If the `i`-th 11-character window of the digit-only string starts with
`01` and validates, it ends up in the fallback-phase result. -/
theorem mem_fallback_of_window (text : List Char) (s : List (List Char)) (i : Nat)
    (hlen : i + 11 ≤ (text.filter Char.isDigit).length)
    (hpre : "01".data.isPrefixOf (((text.filter Char.isDigit).drop i).take 11) = true)
    (hval : validate_egyptian_phone (((text.filter Char.isDigit).drop i).take 11) = true) :
    ((text.filter Char.isDigit).drop i).take 11 ∈ fallbackPhase text s := by
  unfold fallbackPhase
  rw [if_pos (by omega)]
  refine foldl_attain
    (P := fun s => ((text.filter Char.isDigit).drop i).take 11 ∈ s) i ?_ ?_ _ s
    (List.mem_range.mpr (by omega))
  · intro b a hb
    unfold windowStep
    split
    · exact mem_insertPhone_of_mem hb
    · exact hb
  · intro b
    unfold windowStep
    rw [if_pos (by rw [hpre, hval]; rfl)]
    exact mem_insertPhone_self _ _

/-- Window membership lifted to `extract_phone_numbers`. -/
theorem mem_extract_of_window (text : List Char) (i : Nat)
    (hlen : i + 11 ≤ (text.filter Char.isDigit).length)
    (hpre : "01".data.isPrefixOf (((text.filter Char.isDigit).drop i).take 11) = true)
    (hval : validate_egyptian_phone (((text.filter Char.isDigit).drop i).take 11) = true) :
    ((text.filter Char.isDigit).drop i).take 11 ∈ extract_phone_numbers text := by
  unfold extract_phone_numbers
  rw [if_neg ?_]
  · exact mem_fallback_of_window text (regexPhase text) i hlen hpre hval
  · intro hcon
    rw [List.isEmpty_iff] at hcon
    rw [hcon] at hlen
    simp at hlen

/-- If the digit-only string decomposes around a validated number, that
number is extracted. -/
theorem mem_extract_of_decomp (text A B num : List Char)
    (hval : validate_egyptian_phone num = true)
    (hD : text.filter Char.isDigit = A ++ num ++ B) :
    num ∈ extract_phone_numbers text := by
  have hlen11 : num.length = 11 := (validate_spell hval).1
  have hpre2 := (validate_spell hval).2.1
  have hwin : ((text.filter Char.isDigit).drop A.length).take 11 = num := by
    rw [hD, List.append_assoc, List.drop_left, ← hlen11, List.take_left]
  have hl : A.length + 11 ≤ (text.filter Char.isDigit).length := by
    rw [hD]
    simp only [List.length_append, hlen11]
    omega
  have hm := mem_extract_of_window text A.length hl (by rw [hwin]; exact hpre2)
    (by rw [hwin]; exact hval)
  rwa [hwin] at hm

/-- An 11-character string matching the regular expression
`01[0125][0-9][0-9][0-9][0-9][0-9][0-9][0-9][0-9]` (the canonical form). -/
def matchesCanonicalPattern (m : List Char) : Bool :=
  match m with
  | '0' :: '1' :: c :: rest =>
    ['0', '1', '2', '5'].contains c && (rest.length == 8) && rest.all Char.isDigit
  | _ => false

/-- The canonical-form pattern is exactly the validation rule. -/
theorem canonical_validate {m : List Char} (h : matchesCanonicalPattern m = true) :
    validate_egyptian_phone m = true := by
  unfold matchesCanonicalPattern at h
  split at h
  · rename_i c rest
    simp only [Bool.and_eq_true, beq_iff_eq] at h
    obtain ⟨⟨hc, hlen⟩, hall⟩ := h
    have hc4 : c = '0' ∨ c = '1' ∨ c = '2' ∨ c = '5' := by
      simpa using hc
    unfold validate_egyptian_phone
    rcases hc4 with h5 | h5 | h5 | h5 <;> subst h5 <;>
      simp [pyIsDigit, hall, hlen, List.isPrefixOf,
        show rest.length + 3 = 11 by omega, List.isEmpty_iff] <;>
      (intro hr; subst hr; simp at hlen)
  · cases h

/-- C3: every string returned by `extract_phone_numbers` satisfies the
validation rule: length exactly 11, starts with `01`, first three characters
one of `010`, `011`, `012`, `015`, and the remaining 8 characters all
digits. -/
theorem extract_phone_numbers_all_validated (text n : List Char)
    (h : n ∈ extract_phone_numbers text) :
    n.length = 11 ∧ "01".data.isPrefixOf n = true ∧
    n.take 3 ∈ ["010".data, "011".data, "012".data, "015".data] ∧
    (n.drop 3).length = 8 ∧ (n.drop 3).all Char.isDigit = true ∧
    validate_egyptian_phone n = true := by
  have hv := extract_all_valid h
  obtain ⟨h1, h2, h3, h4, h5⟩ := validate_spell hv
  exact ⟨h1, h2, h3, h4, h5, hv⟩

/-- Witness for C3 at the concrete text `"01012345678"`. -/
theorem extract_phone_numbers_all_validated_witness :
    "01012345678".data ∈ extract_phone_numbers "01012345678".data ∧
    validate_egyptian_phone "01012345678".data = true :=
  ⟨by decide,
   (extract_phone_numbers_all_validated "01012345678".data "01012345678".data
     (by decide)).2.2.2.2.2⟩

/-- C4: any text containing a substring that matches `01[0125][0-9]{8}`
extracts that very substring (it is already canonical). -/
theorem extract_contains_canonical_match (pre m post : List Char)
    (h : matchesCanonicalPattern m = true) :
    m ∈ extract_phone_numbers (pre ++ m ++ post) := by
  have hval := canonical_validate h
  have hdig : m.filter Char.isDigit = m :=
    List.filter_eq_self.mpr (validate_digits hval)
  refine mem_extract_of_decomp _ (pre.filter Char.isDigit) (post.filter Char.isDigit)
    m hval ?_
  simp [List.filter_append, hdig]

/-- Witness for C4 at `"a01012345678b"`. -/
theorem extract_contains_canonical_match_witness :
    matchesCanonicalPattern "01012345678".data = true ∧
    "01012345678".data ∈ extract_phone_numbers "a01012345678b".data :=
  ⟨by decide,
   extract_contains_canonical_match "a".data "01012345678".data "b".data (by decide)⟩

/-- C5: a text containing an international-prefixed form of a valid number
(`+20`, `0020`, or bare `20`, each followed by the number's last 10 digits)
extracts the canonical 11-digit form (leading `0` restored). -/
theorem extract_contains_international (pre post num f : List Char)
    (hval : validate_egyptian_phone num = true)
    (hf : f = "+20".data ∨ f = "0020".data ∨ f = "20".data) :
    num ∈ extract_phone_numbers (pre ++ f ++ num.drop 1 ++ post) := by
  have hnum : '0' :: num.drop 1 = num := by
    rw [validate_shape hval]
    simp
  have hdig : (num.drop 1).filter Char.isDigit = num.drop 1 := by
    refine List.filter_eq_self.mpr ?_
    intro c hc
    exact validate_digits hval c (List.mem_of_mem_drop hc)
  rcases hf with hf | hf | hf <;> subst hf
  · refine mem_extract_of_decomp _ (pre.filter Char.isDigit ++ ['2'])
      (post.filter Char.isDigit) num hval ?_
    simp only [List.filter_append, hdig]
    rw [← hnum]
    simp [List.filter]
  · refine mem_extract_of_decomp _ (pre.filter Char.isDigit ++ ['0', '0', '2'])
      (post.filter Char.isDigit) num hval ?_
    simp only [List.filter_append, hdig]
    rw [← hnum]
    simp [List.filter]
  · refine mem_extract_of_decomp _ (pre.filter Char.isDigit ++ ['2'])
      (post.filter Char.isDigit) num hval ?_
    simp only [List.filter_append, hdig]
    rw [← hnum]
    simp [List.filter]

/-- Witness for C5: Scenario C, `"tel +201098765432"` extracts
`"01098765432"`. -/
theorem extract_contains_international_witness :
    validate_egyptian_phone "01098765432".data = true ∧
    "01098765432".data ∈ extract_phone_numbers "tel +201098765432".data :=
  ⟨by decide,
   by
    have h := extract_contains_international "tel ".data [] "01098765432".data
      "+20".data (by decide) (Or.inl rfl)
    simpa using h⟩

/-- The Scenario B input text. -/
def scenarioBText : List Char :=
  "Vodafone: 01112345678 Orange: 01212345678".data

/-- C1 counterexample: on the Scenario B text the record for `01112345678`
is classified Orange (`اورانج`), not Vodafone — `determine_carrier` scans
carriers in fixed dict order and the Orange keyword `orange` occurs in the
text, so both records get Orange. -/
theorem scenarioB_record_not_vodafone :
    ((process_extracted_text scenarioBText).map fun r => (r.phone_number, r.carrier)) =
      [("01112345678".data, "اورانج".data), ("01212345678".data, "اورانج".data)] ∧
    "اورانج".data ≠ "فودافون".data := by
  constructor
  · decide
  · decide

/-- C1 amended: the Scenario B text yields exactly two records, for
`01112345678` and `01212345678`, and both are classified Orange (the context
tier fires for the first carrier in the fixed iteration order whose keyword
occurs anywhere in the text, regardless of which number it is next to). -/
theorem scenarioB_two_records_both_orange :
    (process_extracted_text scenarioBText).length = 2 ∧
    (process_extracted_text scenarioBText).map (fun r => r.phone_number) =
      ["01112345678".data, "01212345678".data] ∧
    (process_extracted_text scenarioBText).map (fun r => r.carrier) =
      ["اورانج".data, "اورانج".data] := by
  refine ⟨?_, ?_, ?_⟩ <;> decide

/-! ## Carrier classification -/

/-- The fixed carrier iteration order of `network_keywords` (dict insertion
order: Orange, Vodafone, Etisalat, WE). -/
def carrierOrder : List (List Char) :=
  ["اورانج".data, "فودافون".data, "اتصالات".data, "وي".data]

/-- Does the keyword set of carrier `c` hit the text? -/
def carrierKeywordHit (text c : List Char) : Bool :=
  keywordHit (pyLower text) ((List.lookup c network_keywords).getD [])

/-- Unfolding lemma: `determine_carrier` equals the first carrier in the fixed order whose
keyword set hits, else the prefix table. -/
theorem determine_carrier_eq_first (text phone : List Char) :
    determine_carrier text phone =
      (carrierOrder.find? (carrierKeywordHit text)).getD
        ( determine_carrier_by_prefix phone) := by
  have h1 : carrierKeywordHit text "اورانج".data = keywordHit (pyLower text) kwsOrange := rfl
  have h2 : carrierKeywordHit text "فودافون".data = keywordHit (pyLower text) kwsVodafone := rfl
  have h3 : carrierKeywordHit text "اتصالات".data = keywordHit (pyLower text) kwsEtisalat := rfl
  have h4 : carrierKeywordHit text "وي".data = keywordHit (pyLower text) kwsWE := rfl
  unfold determine_carrier carrierOrder network_keywords
  simp only [List.find?]
  rw [h1, h2, h3, h4]
  cases hb1 : keywordHit (pyLower text) kwsOrange <;>
    cases hb2 : keywordHit (pyLower text) kwsVodafone <;>
      cases hb3 : keywordHit (pyLower text) kwsEtisalat <;>
        cases hb4 : keywordHit (pyLower text) kwsWE <;>
          simp [network_keywords, hb1, hb2, hb3, hb4]

/-- C6: when the keywords of more than one carrier occur in the text,
`determine_carrier` returns the first matching carrier in the fixed order
Orange, Vodafone, Etisalat, WE — independently of keyword positions — and
the prefix table is not consulted (the result does not depend on the phone
number). -/
theorem determine_carrier_fixed_order (text phone phone2 : List Char)
    (h : 2 ≤ (carrierOrder.filter (carrierKeywordHit text)).length) :
    determine_carrier text phone = (carrierOrder.find? (carrierKeywordHit text)).getD [] ∧
    determine_carrier text phone2 = determine_carrier text phone := by
  have hne : carrierOrder.filter (carrierKeywordHit text) ≠ [] := by
    intro hcon
    rw [hcon] at h
    simp at h
  obtain ⟨c, hcmem⟩ := List.exists_mem_of_ne_nil _ hne
  have hcf := List.mem_filter.mp hcmem
  have hiss : (carrierOrder.find? (carrierKeywordHit text)).isSome :=
    List.find?_isSome.mpr ⟨c, hcf.1, hcf.2⟩
  obtain ⟨d, hd⟩ := Option.isSome_iff_exists.mp hiss
  rw [determine_carrier_eq_first text phone, determine_carrier_eq_first text phone2, hd]
  simp

/-- Witness for C6 on a text containing both an Orange and a Vodafone
keyword: the first carrier in the fixed order (Orange) wins for any phone. -/
theorem determine_carrier_fixed_order_witness :
    2 ≤ (carrierOrder.filter (carrierKeywordHit "orange vodafone 01012345678".data)).length ∧
    (determine_carrier "orange vodafone 01012345678".data "01012345678".data =
      (carrierOrder.find? (carrierKeywordHit "orange vodafone 01012345678".data)).getD [] ∧
    determine_carrier "orange vodafone 01012345678".data "01512345678".data =
      determine_carrier "orange vodafone 01012345678".data "01012345678".data) :=
  ⟨by decide,
   determine_carrier_fixed_order "orange vodafone 01012345678".data
     "01012345678".data "01512345678".data (by decide)⟩

/-- C10: keyword matching is a plain substring search, so any text whose
lowercase form contains `et` (and no Orange or Vodafone keyword) classifies
as Etisalat — for every phone number, bypassing the prefix table. -/
theorem determine_carrier_et_substring (text phone : List Char)
    (het : strContains (pyLower text) "et".data = true)
    (hor : carrierKeywordHit text "اورانج".data = false)
    (hvf : carrierKeywordHit text "فودافون".data = false) :
    determine_carrier text phone = "اتصالات".data := by
  have hets : carrierKeywordHit text "اتصالات".data = true := by
    have hk : (List.lookup "اتصالات".data network_keywords).getD [] = kwsEtisalat := rfl
    unfold carrierKeywordHit
    rw [hk]
    unfold keywordHit
    refine List.any_eq_true.mpr ⟨"ET".data, by decide, ?_⟩
    exact het
  rw [determine_carrier_eq_first]
  unfold carrierOrder
  simp only [List.find?, hor, hvf, hets]
  rfl

/-- Witness for C10 at the text `"network"` (contains `et` inside an
unrelated word) with a number whose prefix would map to Orange. -/
theorem determine_carrier_et_substring_witness :
    strContains (pyLower "network".data) "et".data = true ∧
    carrierKeywordHit "network".data "اورانج".data = false ∧
    carrierKeywordHit "network".data "فودافون".data = false ∧
    determine_carrier "network".data "01012345678".data = "اتصالات".data :=
  ⟨by decide, by decide, by decide,
   determine_carrier_et_substring "network".data "01012345678".data
     (by decide) (by decide) (by decide)⟩

/-! ## Duplicate-freedom of record lists -/

/-- The fold step of `addRecords` preserves duplicate-freedom of the `phone_number` column
(every append is guarded by a membership check on that column). -/
theorem addRecords_nodup {t : List Char} {phones : List (List Char)}
    {acc : List PhoneRecord} (hacc : (acc.map fun d => d.phone_number).Nodup) :
    ((addRecords t phones acc).map fun d => d.phone_number).Nodup := by
  unfold addRecords
  refine foldl_preserve
    (P := fun acc : List PhoneRecord => (acc.map fun d => d.phone_number).Nodup)
    ?_ phones acc hacc
  intro b a hb
  split
  · exact hb
  · rename_i hnm
    rw [List.map_append, List.nodup_append]
    refine ⟨hb, by simp, ?_⟩
    intro x hx hx1
    have hx2 : x = a := by
      simpa [mkRecord] using hx1
    rw [hx2] at hx
    exact hnm hx

/-- The Method 1 sweep preserves duplicate-freedom of the
`phone_number` column. -/
theorem sweep_nodup {Img : Type} (ops : OCROps Img) (img : Img) :
    ∀ (cs : List (List Char)) (acc : List PhoneRecord),
    (acc.map fun d => d.phone_number).Nodup →
    ((ocrSweep ops img cs acc).map fun d => d.phone_number).Nodup := by
  intro cs
  induction cs with
  | nil => intro acc h; exact h
  | cons c rest ih =>
    intro acc h
    unfold ocrSweep
    cases hrec : ops.recognize (preprocess_image ops.pil img) c with
    | error e => exact ih acc h
    | ok t =>
      simp only []
      split
      · split
        · exact ih _ (addRecords_nodup h)
        · exact addRecords_nodup h
      · exact ih acc h

/-- The Method 2 binarize pass preserves duplicate-freedom of the
`phone_number` column. -/
theorem binarizePass_nodup {Img : Type} (ops : OCROps Img) (img : Img)
    {acc : List PhoneRecord} (h : (acc.map fun d => d.phone_number).Nodup) :
    ((binarizePass ops img acc).map fun d => d.phone_number).Nodup := by
  unfold binarizePass
  cases ops.pil.convert img "L".data with
  | error e => exact h
  | ok g =>
    simp only []
    cases ops.threshold g with
    | error e => exact h
    | ok bw =>
      simp only []
      cases ops.recognize bw "--oem 3 --psm 8 -l eng".data with
      | error e => exact h
      | ok t =>
        simp only []
        split
        · exact addRecords_nodup h
        · exact h

/-- The Method 3 manual fallback preserves duplicate-freedom of the
`phone_number` column. -/
theorem addManual_nodup {acc : List PhoneRecord}
    (h : (acc.map fun d => d.phone_number).Nodup) :
    ((addManual acc).map fun d => d.phone_number).Nodup := by
  unfold addManual
  refine foldl_preserve
    (P := fun acc : List PhoneRecord => (acc.map fun d => d.phone_number).Nodup)
    ?_ manual_numbers acc h
  intro b a hb
  split
  · exact hb
  · rename_i hnm
    rw [List.map_append, List.nodup_append]
    refine ⟨hb, by simp, ?_⟩
    intro x hx hx1
    have hx2 : x = a := by
      simpa [manualRecord] using hx1
    rw [hx2] at hx
    exact hnm hx

/-- C8: within a single result list of `extract_from_image_data` and of
`process_extracted_text`, every `phone_number` occurs in at most one
record. -/
theorem phone_number_unique_in_results {Img : Type} (ops : OCROps Img) (img : Img)
    (text : List Char) :
    ((extract_from_image_data ops img).map fun d => d.phone_number).Nodup ∧
    ((process_extracted_text text).map fun d => d.phone_number).Nodup := by
  constructor
  · have h1 := sweep_nodup ops img ocr_configs [] (by simp)
    simp only [extract_from_image_data]
    split
    · split
      · exact addManual_nodup (binarizePass_nodup ops img h1)
      · exact binarizePass_nodup ops img h1
    · exact h1
  · unfold process_extracted_text
    split
    · simp
    · rw [List.map_map]
      have hmap : ((fun d : PhoneRecord => d.phone_number) ∘ fun phone =>
          ({ phone_number := phone, carrier := determine_carrier text phone,
             has_wallet := detect_wallet_mentions text,
             extracted_text := excerpt 200 text } : PhoneRecord)) = id := by
        funext phone
        rfl
      rw [hmap, List.map_id]
      exact extract_nodup text

/-- C7 amended: when a transform step raises, `preprocess_image` returns the
current value of the local `image` variable — the input with exactly the
transforms that completed already applied — and never propagates the error.
It equals the caller's original image only when the failure happens before
any transform has completed. One clause per step of lines 61-95. -/
theorem preprocess_image_partial_on_error {Img : Type} (ops : PILOps Img) :
    (∀ image e, ops.mode image ≠ "RGB".data →
      ops.convert image "RGB".data = Except.error e →
      preprocess_image ops image = image) ∧
    (∀ image i1 e,
      (if ops.mode image = "RGB".data then Except.ok image
        else ops.convert image "RGB".data) = Except.ok i1 →
      ops.convert i1 "L".data = Except.error e → preprocess_image ops image = i1) ∧
    (∀ image i1 i2 e,
      (if ops.mode image = "RGB".data then Except.ok image
        else ops.convert image "RGB".data) = Except.ok i1 →
      ops.convert i1 "L".data = Except.ok i2 →
      ((ops.size i2).1 < 800 || (ops.size i2).2 < 600) = true →
      ((ops.size i2).1 = 0 || (ops.size i2).2 = 0) = false →
      ops.resize i2 (newSize (ops.size i2).1 (ops.size i2).2) = Except.error e →
      preprocess_image ops image = i2) ∧
    (∀ image i1 i2 i3,
      (if ops.mode image = "RGB".data then Except.ok image
        else ops.convert image "RGB".data) = Except.ok i1 →
      ops.convert i1 "L".data = Except.ok i2 →
      ((ops.size i2).1 < 800 || (ops.size i2).2 < 600) = true →
      ((ops.size i2).1 = 0 || (ops.size i2).2 = 0) = false →
      ops.resize i2 (newSize (ops.size i2).1 (ops.size i2).2) = Except.ok i3 →
      preprocess_image ops image = preprocessTail ops i3) ∧
    (∀ image i1 i2,
      (if ops.mode image = "RGB".data then Except.ok image
        else ops.convert image "RGB".data) = Except.ok i1 →
      ops.convert i1 "L".data = Except.ok i2 →
      ((ops.size i2).1 < 800 || (ops.size i2).2 < 600) = false →
      preprocess_image ops image = preprocessTail ops i2) ∧
    (∀ x e, ops.convert x "RGB".data = Except.error e → preprocessTail ops x = x) ∧
    (∀ x i4 e, ops.convert x "RGB".data = Except.ok i4 →
      ops.enhanceContrast i4 = Except.error e → preprocessTail ops x = i4) ∧
    (∀ x i4 i5 e, ops.convert x "RGB".data = Except.ok i4 →
      ops.enhanceContrast i4 = Except.ok i5 →
      ops.enhanceBrightness i5 = Except.error e → preprocessTail ops x = i5) ∧
    (∀ x i4 i5 i6 e, ops.convert x "RGB".data = Except.ok i4 →
      ops.enhanceContrast i4 = Except.ok i5 →
      ops.enhanceBrightness i5 = Except.ok i6 →
      ops.enhanceSharpness i6 = Except.error e → preprocessTail ops x = i6) := by
  refine ⟨?_, ?_, ?_, ?_, ?_, ?_, ?_, ?_, ?_⟩
  · intro image e h1 h2
    simp [preprocess_image, h1, h2]
  · intro image i1 e h1 h2
    simp [preprocess_image, h1, h2]
  · intro image i1 i2 e h1 h2 h3 h4 h5
    simp [preprocess_image, h1, h2, h3, h4, h5]
  · intro image i1 i2 i3 h1 h2 h3 h4 h5
    simp [preprocess_image, h1, h2, h3, h4, h5]
  · intro image i1 i2 h1 h2 h3
    simp [preprocess_image, h1, h2, h3]
  · intro x e h1
    simp [preprocessTail, h1]
  · intro x i4 e h1 h2
    simp [preprocessTail, h1, h2]
  · intro x i4 i5 e h1 h2 h3
    simp [preprocessTail, h1, h2, h3]
  · intro x i4 i5 i6 e h1 h2 h3 h4
    simp [preprocessTail, h1, h2, h3, h4]

/-- A concrete PIL oracle over `Nat`-coded images: every convert transforms
the image (so the result is observably different), the contrast enhancement
raises, and the dimensions are large enough to skip the resize branch. -/
def cexPil : PILOps Nat :=
  { mode := fun _ => "RGB".data, size := fun _ => (800, 600),
    convert := fun i s => if s = "L".data then Except.ok (i + 1) else Except.ok (i + 2),
    resize := fun i _ => Except.ok i,
    enhanceContrast := fun _ => Except.error (),
    enhanceBrightness := fun i => Except.ok i,
    enhanceSharpness := fun i => Except.ok i }

/-- C7 counterexample: with `cexPil`, the contrast step raises after the
grayscale and RGB converts already transformed image `0` into `3`, and
`preprocess_image` returns `3`, not the caller's original image `0`. -/
theorem preprocess_image_not_original_on_error :
    cexPil.enhanceContrast 3 = Except.error () ∧
    preprocess_image cexPil 0 = 3 ∧ (3 : Nat) ≠ 0 :=
  ⟨rfl, rfl, by decide⟩

/-- Witness for the C7 amended theorem at `cexPil`: the no-resize bridge
clause plus the contrast-failure clause give `preprocess_image cexPil 0 =
preprocessTail cexPil 1 = 1 + 2`. -/
theorem preprocess_image_partial_on_error_witness :
    preprocess_image cexPil 0 = 3 := by
  have h := preprocess_image_partial_on_error cexPil
  have hb := h.2.2.2.2.1 0 0 1 rfl rfl rfl
  have hc := h.2.2.2.2.2.2.1 1 3 () rfl rfl
  rw [hb, hc]

/-! ## The Method 1 sweep: stopping behavior -/

/-- A config attempt that contributes nothing: the OCR call raises, the text
is blank, or no valid phone number can be extracted from it. -/
def configYieldsNothing {Img : Type} (ops : OCROps Img) (img : Img) (config : List Char) : Bool :=
  match ops.recognize (preprocess_image ops.pil img) config with
  | Except.error _ => true
  | Except.ok t => !(!t.isEmpty && !(pyStrip t).isEmpty) || (extract_phone_numbers t).isEmpty

/-- The Method 2 pass contributes nothing: a raise anywhere, blank text, or
no valid phone number. -/
def binarizeYieldsNothing {Img : Type} (ops : OCROps Img) (img : Img) : Bool :=
  match ops.pil.convert img "L".data with
  | Except.error _ => true
  | Except.ok g =>
    match ops.threshold g with
    | Except.error _ => true
    | Except.ok bw =>
      match ops.recognize bw "--oem 3 --psm 8 -l eng".data with
      | Except.error _ => true
      | Except.ok t => !(!t.isEmpty && !(pyStrip t).isEmpty) || (extract_phone_numbers t).isEmpty

/-- A contributing-nothing config is skipped by the sweep (starting from the
empty record list). -/
theorem sweep_skip {Img : Type} {ops : OCROps Img} {img : Img} {c : List Char}
    (rest : List (List Char)) (h : configYieldsNothing ops img c = true) :
    ocrSweep ops img (c :: rest) [] = ocrSweep ops img rest [] := by
  unfold configYieldsNothing at h
  cases hrec : ops.recognize (preprocess_image ops.pil img) c with
  | error e =>
    conv_lhs => unfold ocrSweep
    rw [hrec]
  | ok t =>
    rw [hrec] at h
    conv_lhs => unfold ocrSweep
    rw [hrec]
    simp only []
    have h2 : (!(!t.isEmpty && !(pyStrip t).isEmpty) || (extract_phone_numbers t).isEmpty)
        = true := h
    cases hc : (!t.isEmpty && !(pyStrip t).isEmpty) with
    | false => simp [hc]
    | true =>
      rw [hc] at h2
      simp only [Bool.not_true, Bool.false_or] at h2
      rw [List.isEmpty_iff] at h2
      simp [hc, h2, addRecords]

/-- A whole prefix of contributing-nothing configs is skipped. -/
theorem sweep_prefix_fail {Img : Type} (ops : OCROps Img) (img : Img) :
    ∀ (cs1 rest : List (List Char)), cs1.all (configYieldsNothing ops img) = true →
    ocrSweep ops img (cs1 ++ rest) [] = ocrSweep ops img rest [] := by
  intro cs1
  induction cs1 with
  | nil => intro rest h; rfl
  | cons c cs ih =>
    intro rest h
    rw [List.all_cons, Bool.and_eq_true] at h
    rw [List.cons_append, sweep_skip (cs ++ rest) h.1]
    exact ih rest h.2

/-- With distinct phones that are new to the accumulator, `addRecords` is a
plain map append. -/
theorem addRecords_append (t : List Char) :
    ∀ (phones : List (List Char)) (acc : List PhoneRecord), phones.Nodup →
    (∀ p ∈ phones, p ∉ acc.map fun d => d.phone_number) →
    addRecords t phones acc = acc ++ phones.map (mkRecord t) := by
  intro phones
  induction phones with
  | nil => intro acc h1 h2; simp [addRecords]
  | cons p ps ih =>
    intro acc h1 h2
    unfold addRecords
    simp only [List.foldl_cons]
    rw [if_neg (h2 p (by simp))]
    have hrec : addRecords t ps (acc ++ [mkRecord t p]) =
        (acc ++ [mkRecord t p]) ++ ps.map (mkRecord t) := by
      refine ih (acc ++ [mkRecord t p]) (List.nodup_cons.mp h1).2 ?_
      intro q hq
      rw [List.map_append]
      simp only [List.mem_append]
      rintro (hqa | hqb)
      · exact h2 q (by simp [hq]) hqa
      · have hqp : q = p := by
          simpa [mkRecord] using hqb
        exact (List.nodup_cons.mp h1).1 (hqp ▸ hq)
    unfold addRecords at hrec
    rw [hrec]
    simp

/-- A successful head config stops the sweep with records built from its
text only. -/
theorem sweep_success_cons {Img : Type} (ops : OCROps Img) (img : Img)
    (c : List Char) (rest : List (List Char)) (t : List Char)
    (hrec : ops.recognize (preprocess_image ops.pil img) c = Except.ok t)
    (htr : (!t.isEmpty && !(pyStrip t).isEmpty) = true)
    (hx : extract_phone_numbers t ≠ []) :
    ocrSweep ops img (c :: rest) [] = (extract_phone_numbers t).map (mkRecord t) := by
  conv_lhs => unfold ocrSweep
  rw [hrec]
  simp only [htr, if_true]
  have hmap := addRecords_append t (extract_phone_numbers t) [] (extract_nodup t) (by simp)
  rw [hmap]
  simp [hx]

/-- C9: for the default preprocessing variant, `extract_from_image_data`
tries the five OCR configs in the fixed `ocr_configs` order and stops at the
first one whose recognized text is non-blank and yields at least one valid
phone number; the whole result is then built from that single text (no text
from any other configuration is combined in). -/
theorem ocr_config_sweep_first_success {Img : Type} (ops : OCROps Img) (img : Img)
    (cs1 cs2 : List (List Char)) (config t : List Char)
    (horder : ocr_configs = cs1 ++ config :: cs2)
    (hfail : cs1.all (configYieldsNothing ops img) = true)
    (hrec : ops.recognize (preprocess_image ops.pil img) config = Except.ok t)
    (htr : (!t.isEmpty && !(pyStrip t).isEmpty) = true)
    (hx : extract_phone_numbers t ≠ []) :
    extract_from_image_data ops img = (extract_phone_numbers t).map (mkRecord t) := by
  have hsw : ocrSweep ops img ocr_configs [] = (extract_phone_numbers t).map (mkRecord t) := by
    rw [horder, sweep_prefix_fail ops img cs1 (config :: cs2) hfail]
    exact sweep_success_cons ops img config cs2 t hrec htr hx
  have hne : ((extract_phone_numbers t).map (mkRecord t)).isEmpty = false := by
    rw [List.isEmpty_eq_false]
    simp [hx]
  simp only [extract_from_image_data, hsw, hne]
  simp
  intro hcon
  exact absurd hcon hx

/-- The identity-like PIL oracle over `Nat` images (RGB mode, 800×600, every
transform succeeds without raising). -/
def pilId : PILOps Nat :=
  { mode := fun _ => "RGB".data, size := fun _ => (800, 600),
    convert := fun i _ => Except.ok i, resize := fun i _ => Except.ok i,
    enhanceContrast := fun i => Except.ok i, enhanceBrightness := fun i => Except.ok i,
    enhanceSharpness := fun i => Except.ok i }

/-- An OCR oracle whose every recognition attempt raises. -/
def opsA : OCROps Nat :=
  { pil := pilId, recognize := fun _ _ => Except.error (),
    threshold := fun i => Except.ok i }

/-- An OCR oracle that raises on the first config and recognizes the text
`"01012345678"` under every other config. -/
def opsB : OCROps Nat :=
  { pil := pilId,
    recognize := fun _ config =>
      if config = "--oem 3 --psm 6 -l eng".data then Except.error ()
      else Except.ok "01012345678".data,
    threshold := fun i => Except.ok i }

/-- Witness for C9 with `opsB`: config 1 fails, config 2 succeeds with text
`"01012345678"`, and the result is exactly the records of that text. -/
theorem ocr_config_sweep_first_success_witness :
    extract_from_image_data opsB 0 =
      (extract_phone_numbers "01012345678".data).map (mkRecord "01012345678".data) :=
  ocr_config_sweep_first_success opsB 0 ["--oem 3 --psm 6 -l eng".data]
    ["--oem 3 --psm 7 -l eng".data, "--oem 3 --psm 6 -l ara+eng".data,
     "--oem 3 --psm 13 -l eng".data]
    "--oem 3 --psm 8 -l eng".data "01012345678".data rfl (by decide) rfl
    (by decide) (by decide)

/-- A contributing-nothing Method 2 pass leaves the empty record list
empty. -/
theorem binarizePass_nil {Img : Type} (ops : OCROps Img) (img : Img)
    (h : binarizeYieldsNothing ops img = true) : binarizePass ops img [] = [] := by
  unfold binarizeYieldsNothing at h
  unfold binarizePass
  cases hcv : ops.pil.convert img "L".data with
  | error e => rfl
  | ok g =>
    rw [hcv] at h
    have ha : (match ops.threshold g with
      | Except.error _ => true
      | Except.ok bw =>
        match ops.recognize bw "--oem 3 --psm 8 -l eng".data with
        | Except.error _ => true
        | Except.ok t =>
          !(!t.isEmpty && !(pyStrip t).isEmpty) || (extract_phone_numbers t).isEmpty)
        = true := h
    simp only []
    cases hth : ops.threshold g with
    | error e => rfl
    | ok bw =>
      rw [hth] at ha
      have hb : (match ops.recognize bw "--oem 3 --psm 8 -l eng".data with
        | Except.error _ => true
        | Except.ok t =>
          !(!t.isEmpty && !(pyStrip t).isEmpty) || (extract_phone_numbers t).isEmpty)
          = true := ha
      simp only []
      cases hrec : ops.recognize bw "--oem 3 --psm 8 -l eng".data with
      | error e => rfl
      | ok t =>
        rw [hrec] at hb
        have h2 : (!(!t.isEmpty && !(pyStrip t).isEmpty)
            || (extract_phone_numbers t).isEmpty) = true := hb
        cases hc : (!t.isEmpty && !(pyStrip t).isEmpty) with
        | false => simp [hc]
        | true =>
          rw [hc] at h2
          simp only [Bool.not_true, Bool.false_or] at h2
          rw [List.isEmpty_iff] at h2
          simp [hc, h2, addRecords]

/-- C2 amended: when every config of the sweep and the binarize pass yield
no valid phone number, `extract_from_image_data` does not raise and does not
return an empty list — it returns the fixed Method 3 manual-fallback records
for `01128794048` and `01128794050` (both attributed to Etisalat). -/
theorem extract_manual_fallback_when_all_fail {Img : Type} (ops : OCROps Img) (img : Img)
    (h1 : ocr_configs.all (configYieldsNothing ops img) = true)
    (h2 : binarizeYieldsNothing ops img = true) :
    extract_from_image_data ops img =
      [manualRecord "01128794048".data, manualRecord "01128794050".data] := by
  have hsw : ocrSweep ops img ocr_configs [] = [] := by
    have h3 := sweep_prefix_fail ops img ocr_configs [] h1
    rw [List.append_nil] at h3
    rw [h3]
    rfl
  have hbp := binarizePass_nil ops img h2
  simp only [extract_from_image_data, hsw, hbp]
  rfl

/-- C2 counterexample: with the always-raising OCR oracle `opsA`, both the
sweep and the binarize pass produce no valid phone number, yet the result is
the two manual-fallback records, not the empty list. -/
theorem extract_from_image_data_not_empty_on_total_failure :
    ocr_configs.all (configYieldsNothing opsA 0) = true ∧
    binarizeYieldsNothing opsA 0 = true ∧
    extract_from_image_data opsA 0 =
      [manualRecord "01128794048".data, manualRecord "01128794050".data] ∧
    extract_from_image_data opsA 0 ≠ [] := by
  refine ⟨by decide, by decide, ?_, ?_⟩
  · rfl
  · intro hcon
    have : ([] : List PhoneRecord).length =
        (extract_from_image_data opsA 0).length := by rw [hcon]
    rw [show extract_from_image_data opsA 0 =
      [manualRecord "01128794048".data, manualRecord "01128794050".data] from rfl] at this
    simp at this

/-- Witness for the C2 amended theorem at `opsA`. -/
theorem extract_manual_fallback_when_all_fail_witness :
    extract_from_image_data opsA 0 =
      [manualRecord "01128794048".data, manualRecord "01128794050".data] :=
  extract_manual_fallback_when_all_fail opsA 0 (by decide) (by decide)
